import Mathlib

/-!
Shallow embedding of `src/services/Redis.ts` from the receipt-verifier
repository: the receipt watermark tracker, the balance ledger and the
secret proxy registry, together with the Redis Lua scripts the service
installs (`getReceiptValue`, `creditBalance`, `spendBalance`) and the
configuration value `Config.receiptTTLSeconds` from `src/services/Config.ts`.

The Redis keyspace is modelled with one partial map per value shape:
integer-valued scalar keys (balances and temporary scratch keys, which
Redis stores as canonical decimal strings), string-valued scalar keys
(proxy URL mappings), hash keys (receipt records) and the per-key TTL in
seconds most recently set.  Redis encodes stored integers canonically
(no leading zeros, no "-0"), so the Lua test `string.sub(v, 1, 1) == '-'`
holds exactly when the stored integer is negative and is embedded as
`v < 0`.  Amounts travel as `Int`: the TypeScript layer carries them as
64-bit `Long` values and the scripts let Redis do the arithmetic, whose
`INCRBY`/`DECRBY` fail when a result leaves the signed 64-bit range.
-/

deriving instance DecidableEq for Except

/-- `Long.MAX_VALUE`: the largest signed 64-bit integer, the bound the
TypeScript wrappers check amounts against. -/
def INT64_MAX : Int := 2 ^ 63 - 1

/-- Smallest signed 64-bit integer; Redis `INCRBY`/`DECRBY` raise
"increment or decrement would overflow" when a result leaves the closed
interval `INT64_MIN .. INT64_MAX`. -/
def INT64_MIN : Int := -(2 ^ 63)

/-- Pointwise update of a partial map with string keys (`none` deletes). -/
def upd {α : Type} (m : String → Option α) (k : String) (v : Option α) :
    String → Option α :=
  fun q => if q = k then v else m q

/-- A Redis hash record: a partial map from field name to the stored
(decimal-encoded) integer. -/
abbrev HashRec := String → Option Int

/-- The modelled Redis keyspace.  `ints` holds the integer-valued scalar
keys (balances under `ilpBalances:<id>`, scratch keys under
`ilpTemp:<uuid>`), `proxy` the string-valued scalar keys written by the
proxy registry, `hashes` the receipt hash records under
`ilpReceipts:<nonce>`, and `exp` the TTL in seconds most recently set on
a key (none if no expiry was ever set). -/
@[ext]
structure Store where
  ints : String → Option Int
  proxy : String → Option String
  hashes : String → Option HashRec
  exp : String → Option Int

/-- The empty keyspace. -/
def store0 : Store :=
  { ints := fun _ => none
    proxy := fun _ => none
    hashes := fun _ => none
    exp := fun _ => none }

/-- Redis `HGET key f`: the value stored under field `f` of hash `key`. -/
def hget (st : Store) (key f : String) : Option Int :=
  (st.hashes key).bind fun h => h f

/-- Constant `BALANCE_KEY = 'ilpBalances'` from Redis.ts. -/
def BALANCE_KEY : String := "ilpBalances"

/-- Constant `RECEIPT_KEY = 'ilpReceipts'` from Redis.ts. -/
def RECEIPT_KEY : String := "ilpReceipts"

/-- Constant `TEMP_KEY = 'ilpTemp'` from Redis.ts. -/
def TEMP_KEY : String := "ilpTemp"

/-- The key `RECEIPT_KEY:nonce` built by the receipt operations. -/
def receiptKey (nonce : String) : String := RECEIPT_KEY ++ ":" ++ nonce

/-- The key `BALANCE_KEY:id` built by the balance operations. -/
def balanceKey (id : String) : String := BALANCE_KEY ++ ":" ++ id

/-- The scratch key `TEMP_KEY:uuid` built by `Redis.getReceiptValue`. -/
def tempKeyOf (uuid : String) : String := TEMP_KEY ++ ":" ++ uuid

/-- Configuration consumed by the Redis service (`Config.ts`):
`receiptTTLSeconds = Number(env.RECEIPT_TTL) || 300`, fixed at
construction time. -/
structure Config where
  receiptTTLSeconds : Int

/-- Redis `INCRBY key amount`: reads the current integer (0 when the key
is absent), fails without writing when the result leaves the signed
64-bit range, otherwise stores and returns the new value. -/
def incrby (key : String) (amount : Int) (st : Store) :
    (Except String Int) × Store :=
  let res := (st.ints key).getD 0 + amount
  if res < INT64_MIN ∨ INT64_MAX < res then
    (Except.error "increment or decrement would overflow", st)
  else
    (Except.ok res, { st with ints := upd st.ints key (some res) })

/-- Redis `DECRBY key amount`: like `incrby` with the amount subtracted. -/
def decrby (key : String) (amount : Int) (st : Store) :
    (Except String Int) × Store :=
  let res := (st.ints key).getD 0 - amount
  if res < INT64_MIN ∨ INT64_MAX < res then
    (Except.error "increment or decrement would overflow", st)
  else
    (Except.ok res, { st with ints := upd st.ints key (some res) })

/-- The `getReceiptValue` Lua script (Redis.ts lines 56-75).  KEYS[1] is
the receipt hash key, KEYS[2] the scratch key, ARGV[1] the stream id and
ARGV[2] the cumulative amount.  `hget` of a missing key or field yields
nil; `set tempKey amount EX 1` stores the amount with a one-second
expiry; the negativity of the difference is tested on its canonical
decimal encoding. -/
def getReceiptValueScript (key tempKey streamId : String) (amount : Int)
    (st : Store) : Int × Store :=
  let h : HashRec := (st.hashes key).getD (fun _ => none)
  match h streamId with
  | some prevAmount =>
    let st1 : Store :=
      { st with
        ints := upd st.ints tempKey (some amount)
        exp := upd st.exp tempKey (some 1) }
    let diff := amount - prevAmount
    let st2 : Store := { st1 with ints := upd st1.ints tempKey (some diff) }
    if diff < 0 then
      (0, st2)
    else
      (diff,
        { st2 with
          hashes := upd st2.hashes key (some (upd h streamId (some amount))) })
  | none =>
    (amount,
      { st with
        hashes := upd st.hashes key (some (upd h streamId (some amount))) })

/-- `Redis.getReceiptValue` (Redis.ts lines 125-142): rejects a
cumulative total above `Long.MAX_VALUE`, returns 0 untouched when no
record exists for the receipt key, and otherwise runs the Lua script
with a fresh `ilpTemp:<uuid>` scratch key.  The receipt's nonce is taken
already base64-encoded and the random uuid is a parameter. -/
def Redis.getReceiptValue (nonce streamId : String) (amount : Int)
    (uuid : String) (st : Store) : (Except String Int) × Store :=
  if INT64_MAX < amount then
    (Except.error "receipt amount exceeds max 64 bit signed integer", st)
  else
    let key := receiptKey nonce
    if (st.hashes key).isSome then
      let r := getReceiptValueScript key (tempKeyOf uuid) streamId amount st
      (Except.ok r.1, r.2)
    else
      (Except.ok 0, st)

/-- Sequential execution of `Redis.getReceiptValue` over a list of
cumulative totals for one `(receiptId, streamId)`, adding up the
returned deltas.  The scratch uuid is reused; it influences only the
scratch key, never the returned delta or the watermark. -/
def runGetReceiptValues (nonce streamId uuid : String) (amounts : List Int)
    (st : Store) : (Except String Int) × Store :=
  match amounts with
  | [] => (Except.ok 0, st)
  | a :: rest =>
    let r := Redis.getReceiptValue nonce streamId a uuid st
    match r.1 with
    | Except.error e => (Except.error e, r.2)
    | Except.ok d =>
      let t := runGetReceiptValues nonce streamId uuid rest r.2
      match t.1 with
      | Except.error e => (Except.error e, t.2)
      | Except.ok s => (Except.ok (d + s), t.2)

/-- The `creditBalance` Lua script (Redis.ts lines 80-84):
`incrby KEYS[1] amount` then return `get KEYS[1]`.  A failed `INCRBY`
aborts the script before any write.  The `get` of the just-written key
always succeeds; the `none` fallback is unreachable. -/
def creditBalanceScript (key : String) (amount : Int) (st : Store) :
    (Except String Int) × Store :=
  match incrby key amount st with
  | (Except.error e, st1) => (Except.error e, st1)
  | (Except.ok _, st1) =>
    match st1.ints key with
    | some v => (Except.ok v, st1)
    | none => (Except.ok 0, st1)

/-- `Redis.creditBalance` (Redis.ts lines 144-157): guards the amount,
then runs the script; any script failure is reported as the balance
overflow error by the `catch` block. -/
def Redis.creditBalance (id : String) (amount : Int) (st : Store) :
    (Except String Int) × Store :=
  if amount < 0 then
    (Except.error "credit amount must not be negative", st)
  else if INT64_MAX < amount then
    (Except.error "credit amount exceeds max 64 bit signed integer", st)
  else
    match creditBalanceScript (balanceKey id) amount st with
    | (Except.ok v, st1) => (Except.ok v, st1)
    | (Except.error _, st1) =>
      (Except.error "balance cannot exceed max 64 bit signed integer", st1)

/-- The `spendBalance` Lua script (Redis.ts lines 89-103): if the key is
absent fail with "balance does not exist"; otherwise `decrby`, and when
the canonical decimal encoding of the result starts with '-' (i.e. the
result is negative) add the amount back and fail with "insufficient
balance", else return the new balance. -/
def spendBalanceScript (key : String) (amount : Int) (st : Store) :
    (Except String Int) × Store :=
  match st.ints key with
  | none => (Except.error "balance does not exist", st)
  | some _ =>
    match decrby key amount st with
    | (Except.error e, st1) => (Except.error e, st1)
    | (Except.ok _, st1) =>
      let balance := (st1.ints key).getD 0
      if balance < 0 then
        (Except.error "insufficient balance", (incrby key amount st1).2)
      else
        (Except.ok balance, st1)

/-- `Redis.spendBalance` (Redis.ts lines 159-168): guards the amount and
runs the script, propagating script errors verbatim. -/
def Redis.spendBalance (id : String) (amount : Int) (st : Store) :
    (Except String Int) × Store :=
  if amount < 0 then
    (Except.error "spend amount must not be negative", st)
  else if INT64_MAX < amount then
    (Except.error "spend amount exceeds max 64 bit signed integer", st)
  else
    spendBalanceScript (balanceKey id) amount st

/-- `Redis.setReceiptTTL` (Redis.ts lines 119-123): `hset key 'dummy' 0`
(creating the hash when absent) then `expire key receiptTTLSeconds`
with the TTL taken from the configuration, not from the caller. -/
def Redis.setReceiptTTL (cfg : Config) (nonce : String) (st : Store) : Store :=
  let key := receiptKey nonce
  let h : HashRec := (st.hashes key).getD (fun _ => none)
  let st1 : Store :=
    { st with hashes := upd st.hashes key (some (upd h "dummy" (some 0))) }
  { st1 with exp := upd st1.exp key (some cfg.receiptTTLSeconds) }

/-- Modelled from the spec: `registerValidityWindow(receiptId, ttlSeconds)`
as section 4.2 words it, with the expiry taken from the caller-supplied
`ttlSeconds` argument.  The source's `Redis.setReceiptTTL` takes no such
argument; this definition exists only to compare the two. -/
def registerValidityWindow_spec (receiptId : String) (ttlSeconds : Int)
    (st : Store) : Store :=
  let key := receiptKey receiptId
  let h : HashRec := (st.hashes key).getD (fun _ => none)
  let st1 : Store :=
    { st with hashes := upd st.hashes key (some (upd h "dummy" (some 0))) }
  { st1 with exp := upd st1.exp key (some ttlSeconds) }

/-- The argument handed to `new URL` by `Redis.createProxy` (Redis.ts
line 172): a `$`-prefixed payment pointer is expanded to an `https://`
URL, any other string is passed through unchanged. -/
def expandPointerTarget (pointer : String) : String :=
  if pointer.startsWith "$" then "https://" ++ pointer.drop 1 else pointer

/-- `Redis.createProxy` (Redis.ts lines 170-180).  `urlHref` models
Node's WHATWG `URL` constructor composed with `.href` (canonicalized
serialisation, `none` when parsing throws); `sha256hex` models
`crypto.createHash('sha256').update(pointer).digest('hex')`.  Both are
external libraries and enter as parameters.  The hash is computed over
the original pointer string and the canonical href is stored under it. -/
def Redis.createProxy (urlHref : String → Option String)
    (sha256hex : String → String) (pointer : String) (st : Store) :
    (Except String String) × Store :=
  match urlHref (expandPointerTarget pointer) with
  | none => (Except.error "Invalid URL", st)
  | some href =>
    let hashedPointer := sha256hex pointer
    (Except.ok hashedPointer,
      { st with proxy := upd st.proxy hashedPointer (some href) })

/-- `Redis.getPointer` (Redis.ts lines 182-188): return the stored
string when it is truthy (JavaScript treats the empty string, like null,
as falsy), otherwise throw "pointer not found". -/
def Redis.getPointer (hashedPointer : String) (st : Store) :
    Except String String :=
  match st.proxy hashedPointer with
  | some p => if p = "" then Except.error "pointer not found" else Except.ok p
  | none => Except.error "pointer not found"

/-- `Redis.deleteProxy` (Redis.ts lines 190-192): `del hashedPointer`. -/
def Redis.deleteProxy (hashedPointer : String) (st : Store) : Store :=
  { st with proxy := upd st.proxy hashedPointer none }

/-- Balance-ledger operations, for reasoning about sequences of calls. -/
inductive BalanceOp where
  | credit (amount : Int)
  | spend (amount : Int)

/-- One balance-ledger call dispatched to the Redis service. -/
def applyBalanceOp (id : String) (op : BalanceOp) (st : Store) :
    (Except String Int) × Store :=
  match op with
  | BalanceOp.credit a => Redis.creditBalance id a st
  | BalanceOp.spend a => Redis.spendBalance id a st

/-- Sequential execution of balance operations, returning the final
store together with the total successfully credited and the total
successfully spent amounts. -/
def runBalanceOps (id : String) (ops : List BalanceOp) (st : Store) :
    Store × Int × Int :=
  match ops with
  | [] => (st, 0, 0)
  | op :: rest =>
    match op, (applyBalanceOp id op st).1 with
    | BalanceOp.credit a, Except.ok _ =>
      ((runBalanceOps id rest (applyBalanceOp id op st).2).1,
        (runBalanceOps id rest (applyBalanceOp id op st).2).2.1 + a,
        (runBalanceOps id rest (applyBalanceOp id op st).2).2.2)
    | BalanceOp.spend a, Except.ok _ =>
      ((runBalanceOps id rest (applyBalanceOp id op st).2).1,
        (runBalanceOps id rest (applyBalanceOp id op st).2).2.1,
        (runBalanceOps id rest (applyBalanceOp id op st).2).2.2 + a)
    | _, _ => runBalanceOps id rest (applyBalanceOp id op st).2

/-- The integer stored at a scalar key, 0 when the key is absent. -/
def bval (st : Store) (key : String) : Int := (st.ints key).getD 0

@[simp]
theorem upd_self {α : Type} (m : String → Option α) (k : String)
    (v : Option α) : upd m k v k = v := by
  simp [upd]

theorem upd_other {α : Type} (m : String → Option α) (k q : String)
    (v : Option α) (h : q ≠ k) : upd m k v q = m q := by
  simp [upd, h]

/-- INT64_MAX as a numeral, for omega. -/
theorem INT64_MAX_eq : INT64_MAX = 9223372036854775807 := by
  norm_num [INT64_MAX]

/-- INT64_MIN as a numeral, for omega. -/
theorem INT64_MIN_eq : INT64_MIN = -9223372036854775808 := by
  norm_num [INT64_MIN]

/-- C3: a creditableAmount (getReceiptValue) call against a receiptId
with no record in the store returns delta 0 and leaves the whole store
untouched, for every in-range cumulative total. -/
theorem unknown_receipt_returns_zero (nonce streamId uuid : String)
    (amount : Int) (st : Store)
    (habs : st.hashes (receiptKey nonce) = none)
    (_h0 : 0 ≤ amount) (hle : amount ≤ INT64_MAX) :
    Redis.getReceiptValue nonce streamId amount uuid st = (Except.ok 0, st) := by
  unfold Redis.getReceiptValue
  rw [if_neg (not_lt.mpr hle)]
  simp [habs]

/-- Witness for unknown_receipt_returns_zero at nonce "r1", stream "s1",
amount 10 on the empty store. -/
theorem unknown_receipt_returns_zero_witness :
    Redis.getReceiptValue "r1" "s1" 10 "u" store0 = (Except.ok 0, store0) :=
  unknown_receipt_returns_zero "r1" "s1" "u" 10 store0 rfl (by decide)
    (by decide)

/-- C2: a getReceiptValue call whose cumulative total is strictly below
the stored watermark for that (receiptId, streamId) returns delta 0 and
leaves the stored watermark unchanged. -/
theorem older_total_returns_zero (nonce streamId uuid : String)
    (amount p : Int) (st : Store)
    (hwm : hget st (receiptKey nonce) streamId = some p)
    (hlt : amount < p) (hle : amount ≤ INT64_MAX) :
    (Redis.getReceiptValue nonce streamId amount uuid st).1 = Except.ok 0 ∧
    hget (Redis.getReceiptValue nonce streamId amount uuid st).2
      (receiptKey nonce) streamId = some p := by
  obtain ⟨h, hh, hf⟩ := Option.bind_eq_some.mp hwm
  unfold Redis.getReceiptValue
  rw [if_neg (not_lt.mpr hle)]
  unfold getReceiptValueScript
  simp only [hh, Option.isSome_some, if_true, Option.getD_some, hf]
  rw [if_pos (by omega : amount - p < 0)]
  exact ⟨rfl, by simp [hget, hh, hf]⟩

/-- A receipt record for nonce "r1" whose stream "s1" has watermark 15. -/
def stWm15 : Store :=
  { store0 with
    hashes := upd store0.hashes (receiptKey "r1")
      (some (upd (fun _ => none) "s1" (some 15))) }

/-- Witness for older_total_returns_zero: watermark 15, total 5. -/
theorem older_total_returns_zero_witness :
    (Redis.getReceiptValue "r1" "s1" 5 "u" stWm15).1 = Except.ok 0 ∧
    hget (Redis.getReceiptValue "r1" "s1" 5 "u" stWm15).2 (receiptKey "r1")
      "s1" = some 15 :=
  older_total_returns_zero "r1" "s1" "u" 5 15 stWm15 (by decide) (by decide)
    (by decide)

/-- C9: calling setReceiptTTL again writes only the placeholder field
'dummy' and the key's expiry: every other field of the receipt record,
every other key's hash record and expiry, and all scalar keys keep their
values. -/
theorem setReceiptTTL_frame (cfg : Config) (nonce : String) (st : Store) :
    (∀ f, f ≠ "dummy" →
      hget (Redis.setReceiptTTL cfg nonce st) (receiptKey nonce) f
        = hget st (receiptKey nonce) f) ∧
    (Redis.setReceiptTTL cfg nonce st).ints = st.ints ∧
    (Redis.setReceiptTTL cfg nonce st).proxy = st.proxy ∧
    (∀ k, k ≠ receiptKey nonce →
      (Redis.setReceiptTTL cfg nonce st).hashes k = st.hashes k ∧
      (Redis.setReceiptTTL cfg nonce st).exp k = st.exp k) := by
  refine ⟨?_, rfl, rfl, ?_⟩
  · intro f hf
    unfold Redis.setReceiptTTL hget
    cases hst : st.hashes (receiptKey nonce) with
    | some h => simp [hst, upd_self, upd_other _ _ _ _ hf]
    | none => simp [hst, upd_self, upd_other _ _ _ _ hf]
  · intro k hk
    unfold Redis.setReceiptTTL
    exact ⟨upd_other _ _ _ _ hk, upd_other _ _ _ _ hk⟩

/-- Witness for setReceiptTTL_frame: a stored watermark 42 on stream
"s1" survives re-registration. -/
theorem setReceiptTTL_frame_witness :
    hget (Redis.setReceiptTTL ⟨300⟩ "r1"
      { store0 with
        hashes := upd store0.hashes (receiptKey "r1")
          (some (upd (fun _ => none) "s1" (some 42))) })
      (receiptKey "r1") "s1"
      = hget
        { store0 with
          hashes := upd store0.hashes (receiptKey "r1")
            (some (upd (fun _ => none) "s1" (some 42))) }
        (receiptKey "r1") "s1" :=
  (setReceiptTTL_frame ⟨300⟩ "r1"
    { store0 with
      hashes := upd store0.hashes (receiptKey "r1")
        (some (upd (fun _ => none) "s1" (some 42))) }).1 "s1" (by decide)

/-- C7 counterexample: the claim says the expiry is set to a ttlSeconds
argument supplied by the caller; the source's setReceiptTTL takes no
such argument and uses the configured receiptTTLSeconds, so with the
configuration value 300 the store it produces differs from the one the
spec's registerValidityWindow would produce for a caller-supplied TTL
of 7. -/
theorem setReceiptTTL_ignores_caller_ttl :
    Redis.setReceiptTTL ⟨300⟩ "r1" store0
      ≠ registerValidityWindow_spec "r1" 7 store0 := by
  intro hEq
  have h2 := congrArg (fun s => s.exp (receiptKey "r1")) hEq
  simp [Redis.setReceiptTTL, registerValidityWindow_spec, upd_self] at h2

/-- C7 amended: setReceiptTTL ensures a record exists for the receipt
key, sets that key's expiry to exactly the configured receiptTTLSeconds,
and calling it again is idempotent. -/
theorem setReceiptTTL_registers_with_config_ttl (cfg : Config)
    (nonce : String) (st : Store) :
    ((Redis.setReceiptTTL cfg nonce st).hashes (receiptKey nonce)).isSome
        = true ∧
    (Redis.setReceiptTTL cfg nonce st).exp (receiptKey nonce)
        = some cfg.receiptTTLSeconds ∧
    Redis.setReceiptTTL cfg nonce (Redis.setReceiptTTL cfg nonce st)
        = Redis.setReceiptTTL cfg nonce st := by
  refine ⟨by simp [Redis.setReceiptTTL, upd_self], by
    simp [Redis.setReceiptTTL, upd_self], ?_⟩
  have hupd : ∀ h : HashRec,
      upd (upd h "dummy" (some 0)) "dummy" (some 0) = upd h "dummy" (some 0) := by
    intro h
    funext f
    by_cases hf : f = "dummy" <;> simp [upd, hf]
  refine Store.ext ?_ ?_ ?_ ?_ <;> funext q <;>
    by_cases hq : q = receiptKey nonce <;>
    simp [Redis.setReceiptTTL, upd, hq, hupd]

/-- C10 counterexample: with a stored watermark of 10 on stream "s1" and
a call with cumulative total 15, the scratch key written by the
getReceiptValue script ends the call holding 5 (the difference), not the
cumulative total 15 the claim states. -/
theorem scratch_key_holds_diff_not_total :
    ((Redis.getReceiptValue "r1" "s1" 15 "u"
        { store0 with
          hashes := upd store0.hashes (receiptKey "r1")
            (some (upd (fun _ => none) "s1" (some 10))) }).2).ints
        (tempKeyOf "u") = some 5 ∧
    some (5 : Int) ≠ some (15 : Int) := by
  exact ⟨by decide, by decide⟩

/-- C10 amended: a getReceiptValue call against an existing record whose
stream already has a stored watermark p writes the scratch key
`ilpTemp:<uuid>` with value cumulativeTotal - p (the signed difference
left by the SET/DECRBY pair) and a one-second expiry; apart from this
scratch key and the watermark field of the named stream within the named
receipt record, no key or field of the store is modified. -/
theorem getReceiptValue_scratch_frame (nonce streamId uuid : String)
    (amount p : Int) (st : Store)
    (hwm : hget st (receiptKey nonce) streamId = some p)
    (hle : amount ≤ INT64_MAX) :
    ((Redis.getReceiptValue nonce streamId amount uuid st).2.ints
        (tempKeyOf uuid) = some (amount - p)) ∧
    ((Redis.getReceiptValue nonce streamId amount uuid st).2.exp
        (tempKeyOf uuid) = some 1) ∧
    (∀ k, k ≠ tempKeyOf uuid →
      (Redis.getReceiptValue nonce streamId amount uuid st).2.ints k
        = st.ints k) ∧
    ((Redis.getReceiptValue nonce streamId amount uuid st).2.proxy
        = st.proxy) ∧
    (∀ k, k ≠ receiptKey nonce →
      (Redis.getReceiptValue nonce streamId amount uuid st).2.hashes k
        = st.hashes k) ∧
    (∀ f, f ≠ streamId →
      hget (Redis.getReceiptValue nonce streamId amount uuid st).2
        (receiptKey nonce) f = hget st (receiptKey nonce) f) ∧
    (∀ k, k ≠ tempKeyOf uuid →
      (Redis.getReceiptValue nonce streamId amount uuid st).2.exp k
        = st.exp k) := by
  obtain ⟨h, hh, hf⟩ := Option.bind_eq_some.mp hwm
  unfold Redis.getReceiptValue
  rw [if_neg (not_lt.mpr hle)]
  unfold getReceiptValueScript
  simp only [hh, Option.isSome_some, if_true, Option.getD_some, hf]
  by_cases hd : amount - p < 0
  · rw [if_pos hd]
    refine ⟨by simp [upd_self], by simp [upd_self], ?_, rfl, fun k hk => rfl,
      fun f _ => rfl, ?_⟩
    · intro k hk
      simp [upd_other _ _ _ _ hk]
    · intro k hk
      simp [upd_other _ _ _ _ hk]
  · rw [if_neg hd]
    refine ⟨by simp [upd_self], by simp [upd_self], ?_, rfl, ?_, ?_, ?_⟩
    · intro k hk
      simp [upd_other _ _ _ _ hk]
    · intro k hk
      simp [upd_other _ _ _ _ hk]
    · intro f hfne
      simp [hget, upd_self, hh, upd_other _ _ _ _ hfne]
    · intro k hk
      simp [upd_other _ _ _ _ hk]

/-- Witness for getReceiptValue_scratch_frame: watermark 10, total 15,
scratch key ends holding 5 with one-second expiry. -/
theorem getReceiptValue_scratch_frame_witness :
    ((Redis.getReceiptValue "r1" "s1" 15 "u"
        { store0 with
          hashes := upd store0.hashes (receiptKey "r1")
            (some (upd (fun _ => none) "s1" (some 10))) }).2.ints
        (tempKeyOf "u") = some (15 - 10)) ∧
    ((Redis.getReceiptValue "r1" "s1" 15 "u"
        { store0 with
          hashes := upd store0.hashes (receiptKey "r1")
            (some (upd (fun _ => none) "s1" (some 10))) }).2.exp
        (tempKeyOf "u") = some 1) :=
  ⟨(getReceiptValue_scratch_frame "r1" "s1" "u" 15 10 _ (by decide)
      (by decide)).1,
    (getReceiptValue_scratch_frame "r1" "s1" "u" 15 10 _ (by decide)
      (by decide)).2.1⟩

/-- C8: for a pointer whose canonicalized form parses to href, create
returns the content hash of the original pointer string, a second create
with the same pointer returns the same hash and leaves the same stored
URL, lookup of the hash yields the canonical URL, and lookup after
delete fails with the not-found error. -/
theorem createProxy_roundtrip (urlHref : String → Option String)
    (sha256hex : String → String) (pointer href : String) (st : Store)
    (hparse : urlHref (expandPointerTarget pointer) = some href)
    (hne : href ≠ "") :
    (Redis.createProxy urlHref sha256hex pointer st).1
        = Except.ok (sha256hex pointer) ∧
    Redis.createProxy urlHref sha256hex pointer
        (Redis.createProxy urlHref sha256hex pointer st).2
      = Redis.createProxy urlHref sha256hex pointer st ∧
    Redis.getPointer (sha256hex pointer)
        (Redis.createProxy urlHref sha256hex pointer st).2 = Except.ok href ∧
    Redis.getPointer (sha256hex pointer)
        (Redis.deleteProxy (sha256hex pointer)
          (Redis.createProxy urlHref sha256hex pointer st).2)
      = Except.error "pointer not found" := by
  unfold Redis.createProxy Redis.getPointer Redis.deleteProxy
  rw [hparse]
  refine ⟨rfl, ?_, by simp [upd_self, hne], by simp [upd_self]⟩
  have hstore :
      upd (upd st.proxy (sha256hex pointer) (some href)) (sha256hex pointer)
          (some href)
        = upd st.proxy (sha256hex pointer) (some href) := by
    funext q
    by_cases hq : q = sha256hex pointer <;> simp [upd, hq]
  exact congrArg (fun m => (Except.ok (sha256hex pointer),
    { st with proxy := m })) hstore

/-- Witness for createProxy_roundtrip on the spec's example pointer with
a concrete parser and hash function. -/
theorem createProxy_roundtrip_witness :
    (Redis.createProxy (fun _ => some "https://wallet.example/alice")
        (fun _ => "h") "$wallet.example/alice" store0).1 = Except.ok "h" ∧
    Redis.createProxy (fun _ => some "https://wallet.example/alice")
        (fun _ => "h") "$wallet.example/alice"
        (Redis.createProxy (fun _ => some "https://wallet.example/alice")
          (fun _ => "h") "$wallet.example/alice" store0).2
      = Redis.createProxy (fun _ => some "https://wallet.example/alice")
          (fun _ => "h") "$wallet.example/alice" store0 ∧
    Redis.getPointer "h"
        (Redis.createProxy (fun _ => some "https://wallet.example/alice")
          (fun _ => "h") "$wallet.example/alice" store0).2
      = Except.ok "https://wallet.example/alice" ∧
    Redis.getPointer "h"
        (Redis.deleteProxy "h"
          (Redis.createProxy (fun _ => some "https://wallet.example/alice")
            (fun _ => "h") "$wallet.example/alice" store0).2)
      = Except.error "pointer not found" :=
  createProxy_roundtrip (fun _ => some "https://wallet.example/alice")
    (fun _ => "h") "$wallet.example/alice" "https://wallet.example/alice"
    store0 rfl (by decide)

/-- C4: for a valid in-range amount and a nonnegative stored balance,
creditBalance reports the balance-overflow error exactly when the sum
would exceed the signed 64-bit maximum, and on that failure the store is
exactly its pre-call value; within the modelled store semantics no other
failure of the credit script is reported as this error. -/
theorem credit_overflow_iff (id : String) (amount : Int) (st : Store)
    (h0 : 0 ≤ amount) (hle : amount ≤ INT64_MAX)
    (hwf : 0 ≤ bval st (balanceKey id)) :
    ((Redis.creditBalance id amount st).1
        = Except.error "balance cannot exceed max 64 bit signed integer"
      ↔ INT64_MAX < bval st (balanceKey id) + amount) ∧
    (INT64_MAX < bval st (balanceKey id) + amount →
      (Redis.creditBalance id amount st).2 = st) := by
  unfold bval at hwf ⊢
  unfold Redis.creditBalance creditBalanceScript incrby
  rw [if_neg (not_lt.mpr h0), if_neg (not_lt.mpr hle)]
  by_cases hov : INT64_MAX < (st.ints (balanceKey id)).getD 0 + amount
  · rw [if_pos (Or.inr hov)]
    exact ⟨by simp [hov], fun _ => rfl⟩
  · rw [if_neg (by
      rw [INT64_MAX_eq] at hov
      rw [INT64_MIN_eq, INT64_MAX_eq]
      omega)]
    simp [upd_self, hov]

/-- Witness for credit_overflow_iff: balance at INT64_MAX, credit 1
fails with the overflow error and leaves the store unchanged. -/
theorem credit_overflow_iff_witness :
    (Redis.creditBalance "a" 1
        { store0 with
          ints := upd store0.ints (balanceKey "a") (some INT64_MAX) }).1
      = Except.error "balance cannot exceed max 64 bit signed integer" :=
  (credit_overflow_iff "a" 1
      { store0 with
        ints := upd store0.ints (balanceKey "a") (some INT64_MAX) }
      (by decide) (by decide) (by decide)).1.mpr (by decide)

/-- C5: for a valid in-range amount and a well-formed stored balance,
spendBalance fails with "balance does not exist" and changes nothing
when no record exists, fails with "insufficient balance" and restores
the pre-call balance when the subtraction would go negative, and
otherwise stores and returns the decremented balance. -/
theorem spend_cases (id : String) (amount : Int) (st : Store)
    (h0 : 0 ≤ amount) (hle : amount ≤ INT64_MAX)
    (hwf : ∀ b, st.ints (balanceKey id) = some b → 0 ≤ b ∧ b ≤ INT64_MAX) :
    (st.ints (balanceKey id) = none →
      Redis.spendBalance id amount st
        = (Except.error "balance does not exist", st)) ∧
    (∀ b, st.ints (balanceKey id) = some b → b - amount < 0 →
      (Redis.spendBalance id amount st).1
          = Except.error "insufficient balance" ∧
      (Redis.spendBalance id amount st).2.ints (balanceKey id) = some b) ∧
    (∀ b, st.ints (balanceKey id) = some b → 0 ≤ b - amount →
      (Redis.spendBalance id amount st).1 = Except.ok (b - amount) ∧
      (Redis.spendBalance id amount st).2.ints (balanceKey id)
        = some (b - amount)) := by
  unfold Redis.spendBalance spendBalanceScript decrby incrby
  rw [if_neg (not_lt.mpr h0), if_neg (not_lt.mpr hle)]
  refine ⟨fun hnone => by simp [hnone], ?_, ?_⟩
  · intro b hb hneg
    obtain ⟨hb0, hbM⟩ := hwf b hb
    rw [INT64_MAX_eq] at hle hbM
    simp only [hb, Option.getD_some]
    rw [if_neg (by rw [INT64_MAX_eq, INT64_MIN_eq]; omega)]
    simp only [upd_self, Option.getD_some]
    rw [if_pos hneg]
    rw [if_neg (by rw [INT64_MAX_eq, INT64_MIN_eq]; omega)]
    refine ⟨rfl, ?_⟩
    simp only [upd_self]
    congr 1
    omega
  · intro b hb hpos
    obtain ⟨hb0, hbM⟩ := hwf b hb
    rw [INT64_MAX_eq] at hle hbM
    simp only [hb, Option.getD_some]
    rw [if_neg (by rw [INT64_MAX_eq, INT64_MIN_eq]; omega)]
    simp only [upd_self, Option.getD_some]
    rw [if_neg (not_lt.mpr hpos)]
    exact ⟨rfl, by simp [upd_self]⟩

/-- A balance record of 5 for account "a". -/
def stBal5 : Store :=
  { store0 with ints := upd store0.ints (balanceKey "a") (some 5) }

/-- Witness for spend_cases: spending 10 from a balance of 5 fails with
"insufficient balance" and the stored balance stays 5. -/
theorem spend_cases_witness :
    (Redis.spendBalance "a" 10 stBal5).1
      = Except.error "insufficient balance" ∧
    (Redis.spendBalance "a" 10 stBal5).2.ints (balanceKey "a") = some 5 :=
  (spend_cases "a" 10 stBal5 (by decide) (by decide)
      (fun b hb => by
        have h5 : stBal5.ints (balanceKey "a") = some 5 := by decide
        rw [h5] at hb
        injection hb with h
        subst h
        exact ⟨by decide, by decide⟩)).2.1 5 (by decide) (by decide)

/-- One creditBalance call from a well-formed balance: on success the
balance grows by the amount and stays in range; on any failure the store
is exactly its pre-call value. -/
theorem creditBalance_step (id : String) (a : Int) (st : Store)
    (h0 : 0 ≤ bval st (balanceKey id))
    (_h1 : bval st (balanceKey id) ≤ INT64_MAX) :
    (∀ v, (Redis.creditBalance id a st).1 = Except.ok v →
      bval (Redis.creditBalance id a st).2 (balanceKey id)
          = bval st (balanceKey id) + a ∧
      0 ≤ bval (Redis.creditBalance id a st).2 (balanceKey id) ∧
      bval (Redis.creditBalance id a st).2 (balanceKey id) ≤ INT64_MAX) ∧
    (∀ e, (Redis.creditBalance id a st).1 = Except.error e →
      (Redis.creditBalance id a st).2 = st) := by
  unfold bval at h0 ⊢
  unfold Redis.creditBalance creditBalanceScript incrby
  by_cases hneg : a < 0
  · rw [if_pos hneg]
    exact ⟨fun v hv => by simp at hv, fun e _ => rfl⟩
  · rw [if_neg hneg]
    by_cases hbig : INT64_MAX < a
    · rw [if_pos hbig]
      exact ⟨fun v hv => by simp at hv, fun e _ => rfl⟩
    · rw [if_neg hbig]
      by_cases hov : (st.ints (balanceKey id)).getD 0 + a < INT64_MIN ∨
          INT64_MAX < (st.ints (balanceKey id)).getD 0 + a
      · rw [if_pos hov]
        exact ⟨fun v hv => by simp at hv, fun e _ => rfl⟩
      · rw [if_neg hov]
        push_neg at hov
        refine ⟨fun v _ => ⟨by simp [upd_self], by simp [upd_self]; omega,
          by simp [upd_self]; omega⟩, fun e he => by simp at he⟩

/-- One spendBalance call from a well-formed balance: on success the
balance shrinks by the amount and stays in range; on any failure the
store equals its pre-call value. -/
theorem spendBalance_step (id : String) (a : Int) (st : Store)
    (h0 : 0 ≤ bval st (balanceKey id))
    (h1 : bval st (balanceKey id) ≤ INT64_MAX) :
    (∀ v, (Redis.spendBalance id a st).1 = Except.ok v →
      bval (Redis.spendBalance id a st).2 (balanceKey id)
          = bval st (balanceKey id) - a ∧
      0 ≤ bval (Redis.spendBalance id a st).2 (balanceKey id) ∧
      bval (Redis.spendBalance id a st).2 (balanceKey id) ≤ INT64_MAX) ∧
    (∀ e, (Redis.spendBalance id a st).1 = Except.error e →
      (Redis.spendBalance id a st).2 = st) := by
  unfold bval at h0 h1 ⊢
  unfold Redis.spendBalance spendBalanceScript decrby incrby
  by_cases hneg : a < 0
  · rw [if_pos hneg]
    exact ⟨fun v hv => by simp at hv, fun e _ => rfl⟩
  · rw [if_neg hneg]
    have ha : 0 ≤ a := not_lt.mp hneg
    by_cases hbig : INT64_MAX < a
    · rw [if_pos hbig]
      exact ⟨fun v hv => by simp at hv, fun e _ => rfl⟩
    · rw [if_neg hbig]
      have haM : a ≤ INT64_MAX := not_lt.mp hbig
      cases hk : st.ints (balanceKey id) with
      | none =>
        exact ⟨fun v hv => by simp at hv, fun e _ => rfl⟩
      | some b =>
        rw [hk] at h0 h1
        simp only [Option.getD_some] at h0 h1
        simp only [Option.getD_some]
        rw [if_neg (by
          rw [INT64_MIN_eq, INT64_MAX_eq]
          rw [INT64_MAX_eq] at h1 haM
          omega)]
        simp only [upd_self, Option.getD_some]
        by_cases hins : b - a < 0
        · rw [if_pos hins]
          rw [if_neg (by
            rw [INT64_MIN_eq, INT64_MAX_eq]
            rw [INT64_MAX_eq] at h1 haM
            omega)]
          refine ⟨fun v hv => by simp at hv, fun e _ => ?_⟩
          refine Store.ext ?_ rfl rfl rfl
          funext q
          by_cases hq : q = balanceKey id
          · subst hq
            simp only [upd_self, hk]
            congr 1
            omega
          · simp [upd_other _ _ _ _ hq]
        · rw [if_neg hins]
          refine ⟨fun v _ => ⟨by simp [upd_self], by simp [upd_self]; omega,
            by simp [upd_self]; omega⟩, fun e he => by simp at he⟩

/-- Accounting invariant for a sequence of balance operations: from a
well-formed balance the final value is the initial value plus the total
successfully credited minus the total successfully spent, and it stays
within 0 .. INT64_MAX. -/
theorem runBalanceOps_spec (id : String) (ops : List BalanceOp) :
    ∀ st : Store, 0 ≤ bval st (balanceKey id) →
      bval st (balanceKey id) ≤ INT64_MAX →
      (bval (runBalanceOps id ops st).1 (balanceKey id)
          = bval st (balanceKey id) + (runBalanceOps id ops st).2.1
            - (runBalanceOps id ops st).2.2) ∧
      0 ≤ bval (runBalanceOps id ops st).1 (balanceKey id) ∧
      bval (runBalanceOps id ops st).1 (balanceKey id) ≤ INT64_MAX := by
  induction ops with
  | nil =>
    intro st h0 h1
    exact ⟨by simp [runBalanceOps], h0, h1⟩
  | cons op rest ih =>
    intro st h0 h1
    cases op with
    | credit a =>
      rcases hr : (Redis.creditBalance id a st).1 with e | v
      · have hst := (creditBalance_step id a st h0 h1).2 e hr
        have hrun : runBalanceOps id (BalanceOp.credit a :: rest) st
            = runBalanceOps id rest (Redis.creditBalance id a st).2 := by
          simp only [runBalanceOps, applyBalanceOp]
          rw [hr]
        rw [hrun, hst]
        exact ih st h0 h1
      · obtain ⟨hb, hb0, hbM⟩ := (creditBalance_step id a st h0 h1).1 v hr
        have hrun : runBalanceOps id (BalanceOp.credit a :: rest) st
            = ((runBalanceOps id rest (Redis.creditBalance id a st).2).1,
              (runBalanceOps id rest (Redis.creditBalance id a st).2).2.1
                + a,
              (runBalanceOps id rest (Redis.creditBalance id a st).2).2.2)
              := by
          simp only [runBalanceOps, applyBalanceOp]
          rw [hr]
        obtain ⟨ih1, ih2, ih3⟩ := ih (Redis.creditBalance id a st).2 hb0 hbM
        rw [hrun]
        exact ⟨by rw [ih1, hb]; ring, ih2, ih3⟩
    | spend a =>
      rcases hr : (Redis.spendBalance id a st).1 with e | v
      · have hst := (spendBalance_step id a st h0 h1).2 e hr
        have hrun : runBalanceOps id (BalanceOp.spend a :: rest) st
            = runBalanceOps id rest (Redis.spendBalance id a st).2 := by
          simp only [runBalanceOps, applyBalanceOp]
          rw [hr]
        rw [hrun, hst]
        exact ih st h0 h1
      · obtain ⟨hb, hb0, hbM⟩ := (spendBalance_step id a st h0 h1).1 v hr
        have hrun : runBalanceOps id (BalanceOp.spend a :: rest) st
            = ((runBalanceOps id rest (Redis.spendBalance id a st).2).1,
              (runBalanceOps id rest (Redis.spendBalance id a st).2).2.1,
              (runBalanceOps id rest (Redis.spendBalance id a st).2).2.2
                + a) := by
          simp only [runBalanceOps, applyBalanceOp]
          rw [hr]
        obtain ⟨ih1, ih2, ih3⟩ := ih (Redis.spendBalance id a st).2 hb0 hbM
        rw [hrun]
        exact ⟨by rw [ih1, hb]; ring, ih2, ih3⟩

/-- C6: over any sequence of credit and spend operations on one balance,
the final stored value equals the initial value (0 if absent) plus the
sum of successfully credited amounts minus the sum of successfully spent
amounts, and after every prefix of the sequence the stored value lies in
0 .. INT64_MAX. -/
theorem balance_accounting (id : String) (ops : List BalanceOp) (st : Store)
    (h0 : 0 ≤ bval st (balanceKey id))
    (h1 : bval st (balanceKey id) ≤ INT64_MAX) :
    (bval (runBalanceOps id ops st).1 (balanceKey id)
        = bval st (balanceKey id) + (runBalanceOps id ops st).2.1
          - (runBalanceOps id ops st).2.2) ∧
    (∀ n : Nat,
      0 ≤ bval (runBalanceOps id (ops.take n) st).1 (balanceKey id) ∧
      bval (runBalanceOps id (ops.take n) st).1 (balanceKey id)
        ≤ INT64_MAX) :=
  ⟨(runBalanceOps_spec id ops st h0 h1).1,
    fun n => ⟨(runBalanceOps_spec id (ops.take n) st h0 h1).2.1,
      (runBalanceOps_spec id (ops.take n) st h0 h1).2.2⟩⟩

/-- Witness for balance_accounting on the spec's example scenario:
credit 10, credit 5, spend 20 (fails), spend 15, starting from the empty
store. -/
theorem balance_accounting_witness :
    (bval (runBalanceOps "acct1"
        [BalanceOp.credit 10, BalanceOp.credit 5, BalanceOp.spend 20,
          BalanceOp.spend 15] store0).1 (balanceKey "acct1")
      = bval store0 (balanceKey "acct1")
        + (runBalanceOps "acct1"
            [BalanceOp.credit 10, BalanceOp.credit 5, BalanceOp.spend 20,
              BalanceOp.spend 15] store0).2.1
        - (runBalanceOps "acct1"
            [BalanceOp.credit 10, BalanceOp.credit 5, BalanceOp.spend 20,
              BalanceOp.spend 15] store0).2.2) ∧
    (∀ n : Nat,
      0 ≤ bval (runBalanceOps "acct1"
          ([BalanceOp.credit 10, BalanceOp.credit 5, BalanceOp.spend 20,
            BalanceOp.spend 15].take n) store0).1 (balanceKey "acct1") ∧
      bval (runBalanceOps "acct1"
          ([BalanceOp.credit 10, BalanceOp.credit 5, BalanceOp.spend 20,
            BalanceOp.spend 15].take n) store0).1 (balanceKey "acct1")
        ≤ INT64_MAX) :=
  balance_accounting "acct1"
    [BalanceOp.credit 10, BalanceOp.credit 5, BalanceOp.spend 20,
      BalanceOp.spend 15] store0 (by decide) (by decide)

/-- One getReceiptValue call whose total is at least the stored
watermark returns the difference and advances the watermark to the
total. -/
theorem getReceiptValue_advance (nonce streamId uuid : String) (a w : Int)
    (st : Store) (h : HashRec)
    (hh : st.hashes (receiptKey nonce) = some h)
    (hf : h streamId = some w)
    (hwa : w ≤ a) (haM : a ≤ INT64_MAX) :
    (Redis.getReceiptValue nonce streamId a uuid st).1 = Except.ok (a - w) ∧
    hget (Redis.getReceiptValue nonce streamId a uuid st).2
      (receiptKey nonce) streamId = some a := by
  unfold Redis.getReceiptValue getReceiptValueScript
  rw [if_neg (not_lt.mpr haM)]
  simp only [hh, Option.isSome_some, if_true, Option.getD_some, hf]
  rw [if_neg (by omega : ¬ a - w < 0)]
  exact ⟨rfl, by simp [hget, upd_self]⟩

/-- One getReceiptValue call against an existing record whose stream has
no stored watermark returns the full total and stores it as watermark. -/
theorem getReceiptValue_first (nonce streamId uuid : String) (a : Int)
    (st : Store) (h : HashRec)
    (hh : st.hashes (receiptKey nonce) = some h)
    (hf : h streamId = none) (haM : a ≤ INT64_MAX) :
    (Redis.getReceiptValue nonce streamId a uuid st).1 = Except.ok a ∧
    hget (Redis.getReceiptValue nonce streamId a uuid st).2
      (receiptKey nonce) streamId = some a := by
  unfold Redis.getReceiptValue getReceiptValueScript
  rw [if_neg (not_lt.mpr haM)]
  simp only [hh, Option.isSome_some, if_true, Option.getD_some, hf]
  constructor
  · simp
  · simp [hget, upd_self]

/-- Telescoping sum of deltas from a stored watermark w: over a
non-decreasing chain of totals starting at or above w, the deltas sum to
the last total minus w. -/
theorem runGetReceiptValues_from_watermark (nonce streamId uuid : String)
    (amounts : List Int) :
    ∀ (st : Store) (w : Int),
      hget st (receiptKey nonce) streamId = some w →
      List.Chain' (fun a b => a ≤ b) (w :: amounts) →
      (∀ a ∈ amounts, a ≤ INT64_MAX) →
      (runGetReceiptValues nonce streamId uuid amounts st).1
        = Except.ok ((w :: amounts).getLast?.getD 0 - w) := by
  induction amounts with
  | nil =>
    intro st w _ _ _
    simp [runGetReceiptValues]
  | cons a rest ih =>
    intro st w hwm hch hmax
    obtain ⟨h, hh, hf⟩ := Option.bind_eq_some.mp hwm
    have hwa : w ≤ a := (List.chain'_cons.mp hch).1
    have hch2 : List.Chain' (fun a b => a ≤ b) (a :: rest) :=
      (List.chain'_cons.mp hch).2
    have haM : a ≤ INT64_MAX := hmax a (List.mem_cons_self _ _)
    have hadv := getReceiptValue_advance nonce streamId uuid a w st h hh hf
      hwa haM
    have hrest := ih (Redis.getReceiptValue nonce streamId a uuid st).2 a
      hadv.2 hch2 (fun x hx => hmax x (List.mem_cons_of_mem _ hx))
    simp only [runGetReceiptValues, hadv.1, hrest]
    rw [List.getLast?_cons_cons]
    congr 1
    ring

/-- C1: against a registered receipt record whose stream has not been
credited yet, a sequential run of getReceiptValue calls with
non-decreasing in-range cumulative totals returns deltas whose sum is
the final cumulative total passed in. -/
theorem deltas_sum_eq_final_total (nonce streamId uuid : String)
    (amounts : List Int) (st : Store)
    (hreg : (st.hashes (receiptKey nonce)).isSome = true)
    (hfresh : hget st (receiptKey nonce) streamId = none)
    (hne : amounts ≠ [])
    (hchain : List.Chain' (fun a b => a ≤ b) amounts)
    (hmax : ∀ a ∈ amounts, a ≤ INT64_MAX) :
    (runGetReceiptValues nonce streamId uuid amounts st).1
      = Except.ok (amounts.getLast?.getD 0) := by
  cases amounts with
  | nil => exact absurd rfl hne
  | cons a rest =>
    obtain ⟨h, hh⟩ := Option.isSome_iff_exists.mp hreg
    have hf : h streamId = none := by
      unfold hget at hfresh
      rw [hh] at hfresh
      simpa using hfresh
    have hfirst := getReceiptValue_first nonce streamId uuid a st h hh hf
      (hmax a (List.mem_cons_self _ _))
    have hrest := runGetReceiptValues_from_watermark nonce streamId uuid rest
      (Redis.getReceiptValue nonce streamId a uuid st).2 a hfirst.2 hchain
      (fun x hx => hmax x (List.mem_cons_of_mem _ hx))
    simp only [runGetReceiptValues, hfirst.1, hrest]
    congr 1
    ring

/-- A freshly registered receipt record for nonce "r1". -/
def stRegSample : Store := Redis.setReceiptTTL ⟨300⟩ "r1" store0

/-- Witness for deltas_sum_eq_final_total: after registration, totals
10 then 15 produce deltas summing to the final total 15. -/
theorem deltas_sum_eq_final_total_witness :
    (runGetReceiptValues "r1" "s1" "u" [10, 15] stRegSample).1
      = Except.ok (([10, 15] : List Int).getLast?.getD 0) :=
  deltas_sum_eq_final_total "r1" "s1" "u" [10, 15] stRegSample (by decide)
    (by decide) (by decide)
    (by norm_num [List.chain'_cons, List.chain'_singleton]) (by decide)
